import Mathlib

/-!
Shallow embedding of the caption-acquisition pipeline of this repository:
the primary caption grabber (`scripts/grab-captions.ts`) and the enrichment /
fallback transcription command (`scripts/transcribe-fallback.ts`).

External effects (file existence, subprocess results, the captions API, the
transcription API, wall-clock time) are passed in as explicit parameters, so
every function here is a pure, executable translation of the corresponding
TypeScript function.  JavaScript numbers that can go negative are modelled as
`Int`; counters are `Nat`.
-/

/-- `CaptionEntry` from both scripts: one timed text segment. -/
structure CaptionEntry where
  text : String
  offset : Int
  duration : Int
deriving DecidableEq, Repr

/-- One element of `Progress.failedVideos`. -/
structure FailedVideo where
  id : String
  error : String
  lastAttempt : String
deriving DecidableEq, Repr

/-- `Progress` (the durable ledger) from both scripts. -/
structure Progress where
  processedVideos : List String
  failedVideos : List FailedVideo
  lastRun : String
deriving DecidableEq, Repr

/-- `VideoInfo` from both scripts. -/
structure VideoInfo where
  id : String
  title : String
  url : String
  duration : Int
  playlistId : String
  playlistTitle : String
deriving DecidableEq, Repr

/-! ## VTT parsing (`parseVttFile` in `grab-captions.ts`)

The TypeScript works on JavaScript strings with regular expressions; here we
work on `List Char` with hand-rolled scanners that implement exactly the same
regex semantics (`split(/\n\n+/)`, an unanchored search for
`(\d{2}):(\d{2}):(\d{2})\.(\d{3})\s*-->\s*(\d{2}):(\d{2}):(\d{2})\.(\d{3})`,
and a global replace of `/<[^>]+>/`). -/

/-- `content.split(/\n\n+/)`: blocks are separated by maximal runs of two or
more newlines.  The `sep` flag is true while we are consuming the remainder of
a separator run. -/
def splitBlocksAux : Bool → List Char → List Char → List (List Char)
  | _, [], acc => [acc.reverse]
  | true, '\n' :: rest, _ => splitBlocksAux true rest []
  | true, c :: rest, _ => splitBlocksAux false rest [c]
  | false, ['\n'], acc => [('\n' :: acc).reverse]
  | false, '\n' :: '\n' :: rest, acc => acc.reverse :: splitBlocksAux true rest []
  | false, '\n' :: c :: rest, acc => splitBlocksAux false (c :: rest) ('\n' :: acc)
  | false, c :: rest, acc => splitBlocksAux false rest (c :: acc)

/-- All blocks of a VTT file body. -/
def splitBlocks (content : List Char) : List (List Char) :=
  splitBlocksAux false content []

/-- `s.split("\n")` on a list of characters (keeps empty pieces). -/
def splitLinesAux : List Char → List Char → List (List Char)
  | [], acc => [acc.reverse]
  | '\n' :: rest, acc => acc.reverse :: splitLinesAux rest []
  | c :: rest, acc => splitLinesAux rest (c :: acc)

/-- `s.split("\n")`. -/
def splitLines (cs : List Char) : List (List Char) :=
  splitLinesAux cs []

/-- JavaScript `String.prototype.trim` (whitespace stripped from both ends). -/
def jsTrim (cs : List Char) : List Char :=
  ((cs.dropWhile (fun c => c.isWhitespace)).reverse.dropWhile
    (fun c => c.isWhitespace)).reverse

/-- `l.includes("-->")`: does the line contain the arrow marker? -/
def hasArrow : List Char → Bool
  | '-' :: '-' :: '>' :: _ => true
  | _ :: rest => hasArrow rest
  | [] => false

/-- Numeric value of a decimal digit character. -/
def digitVal (c : Char) : Nat := c.toNat - 48

/-- Match `\d{2}` and return its `parseInt` value with the rest of the input. -/
def take2Digits : List Char → Option (Nat × List Char)
  | a :: b :: rest =>
    if a.isDigit && b.isDigit then some (digitVal a * 10 + digitVal b, rest)
    else none
  | _ => none

/-- Match `\d{3}` and return its `parseInt` value with the rest of the input. -/
def take3Digits : List Char → Option (Nat × List Char)
  | a :: b :: c :: rest =>
    if a.isDigit && b.isDigit && c.isDigit then
      some (digitVal a * 100 + digitVal b * 10 + digitVal c, rest)
    else none
  | _ => none

/-- Match one expected literal character. -/
def expectCh (c : Char) : List Char → Option (List Char)
  | d :: rest => if d == c then some rest else none
  | [] => none

/-- Match `(\d{2}):(\d{2}):(\d{2})\.(\d{3})` at the current position and
convert to milliseconds via `H*3600000 + M*60000 + S*1000 + mmm`, exactly as
lines 135-144 of `grab-captions.ts` do. -/
def matchTime (cs : List Char) : Option (Nat × List Char) := do
  let (h, cs) ← take2Digits cs
  let cs ← expectCh ':' cs
  let (m, cs) ← take2Digits cs
  let cs ← expectCh ':' cs
  let (s, cs) ← take2Digits cs
  let cs ← expectCh '.' cs
  let (f, cs) ← take3Digits cs
  pure (h * 3600000 + m * 60000 + s * 1000 + f, cs)

/-- Match the full timing pattern (`start \s* --> \s* end`) at the current
position, yielding start and end in milliseconds. -/
def matchTimePairAt (cs : List Char) : Option (Nat × Nat) := do
  let (startMs, cs) ← matchTime cs
  let cs := cs.dropWhile (fun c => c.isWhitespace)
  let cs ← expectCh '-' cs
  let cs ← expectCh '-' cs
  let cs ← expectCh '>' cs
  let cs := cs.dropWhile (fun c => c.isWhitespace)
  let (endMs, _) ← matchTime cs
  pure (startMs, endMs)

/-- Unanchored regex search: try the timing pattern at every start position. -/
def matchTimePair : List Char → Option (Nat × Nat)
  | [] => none
  | c :: rest =>
    match matchTimePairAt (c :: rest) with
    | some r => some r
    | none => matchTimePair rest

/-- Global replace of `/<[^>]+>/` with the empty string.  While scanning we
either sit outside any candidate tag (`none`) or hold the reversed characters
seen since the last unclosed `<` (`some buf`).  A `>` with a non-empty buffer
closes the tag (dropping it); a `>` with an empty buffer means `<>`, which the
regex does not match, so both characters are kept. -/
def stripTagsAux : Option (List Char) → List Char → List Char
  | none, [] => []
  | none, '<' :: rest => stripTagsAux (some []) rest
  | none, c :: rest => c :: stripTagsAux none rest
  | some buf, [] => '<' :: buf.reverse
  | some [], '>' :: rest => '<' :: '>' :: stripTagsAux none rest
  | some (_ :: _), '>' :: rest => stripTagsAux none rest
  | some buf, c :: rest => stripTagsAux (some (c :: buf)) rest

/-- Strip angle-bracket tags the way `.replace(/<[^>]+>/g, "")` does. -/
def stripTags (cs : List Char) : List Char :=
  stripTagsAux none cs

/-- The body of the `for (const block of blocks)` loop of `parseVttFile`:
trim the block, split it into lines, find the first line containing `-->`,
match it against the timing regex, join the lines after the timing line with
a single space, strip tags, trim, and keep the cue only if the text is
non-empty. -/
def parseBlock (block : List Char) : Option CaptionEntry :=
  let lines := splitLines (jsTrim block)
  match lines.find? (fun l => hasArrow l) with
  | none => none
  | some timestampLine =>
    match matchTimePair timestampLine with
    | none => none
    | some (startMs, endMs) =>
      let textStartIdx := lines.indexOf timestampLine + 1
      let text := jsTrim (stripTags (List.intercalate [' '] (lines.drop textStartIdx)))
      if text.isEmpty then none
      else some ⟨String.mk text, (startMs : Int), (endMs : Int) - (startMs : Int)⟩

/-- `parseVttFile` applied to the text of an existing VTT file. -/
def parseVtt (content : String) : List CaptionEntry :=
  (splitBlocks content.data).filterMap parseBlock

/-- `parseVttFile` from `grab-captions.ts`; `none` stands for a path whose
file does not exist (the function then returns `[]`). -/
def parseVttFile (file : Option String) : List CaptionEntry :=
  match file with
  | none => []
  | some content => parseVtt content

/-- The two-cue sample subtitle string from the specification. -/
def vttSample : String :=
  "00:00:01.000 --> 00:00:02.500\nHello <c>world</c>\n\n00:00:03.000 --> 00:00:04.000\nSecond line"

/-! ## Ledger load (`loadProgress` in both scripts)

`Bun.file(PROGRESS_FILE)` and JSON parsing are external; `file` is the file's
text when the file exists, and `parseJson` is the runtime's JSON decoder
(returning `none` where `file.json()` would reject).  When the file exists the
script returns `file.json()` directly, so a parse failure propagates as an
exception (`Except.error`); only an absent file yields the fresh ledger. -/

/-- `loadProgress` from both scripts. -/
def loadProgress (file : Option String) (parseJson : String → Option Progress) :
    Except Unit Progress :=
  match file with
  | none => .ok ⟨[], [], ""⟩
  | some s =>
    match parseJson s with
    | some p => .ok p
    | none => .error ()

/-! ## The fallback resolver (`fetchCaptions` in `grab-captions.ts`)

The two adapters of the primary run are external calls; we pass their outcomes
in: `direct` is the `YoutubeTranscript.fetchTranscript` call (`.error` when it
throws), `ytdlpError` tells whether the `yt-dlp` subprocess of
`fetchCaptionsWithYtDlp` threw, and `vttFiles` are the contents of the three
candidate subtitle files (in the fixed suffix-priority order of the script,
`none` for a file that does not exist).  The speech-to-text adapter lives in a
different script and is not reachable from this function at all. -/

/-- The adapters named by the specification. -/
inductive Adapter where
  | direct
  | subtitle
  | stt
deriving DecidableEq, Repr

/-- The loop of `fetchCaptionsWithYtDlp` over candidate VTT files: return the
first parse with at least one entry. -/
def firstNonEmpty : List (List CaptionEntry) → Option (List CaptionEntry)
  | [] => none
  | es :: rest => if es.length > 0 then some es else firstNonEmpty rest

/-- `fetchCaptionsWithYtDlp` from `grab-captions.ts` (the subtitle-file
adapter): on a subprocess error the catch block returns `null`; otherwise the
candidate files are parsed in order and the first non-empty result wins. -/
def fetchCaptionsWithYtDlp (ytdlpError : Bool) (vttFiles : List (Option String)) :
    Option (List CaptionEntry) :=
  if ytdlpError then none
  else firstNonEmpty (vttFiles.map parseVttFile)

/-- `fetchCaptions` from `grab-captions.ts`, instrumented with the list of
adapters invoked, in invocation order.  The direct-caption library is tried
first; a thrown error or an empty transcript falls through to the subtitle
adapter; the transcript mapping (`text`/`offset`/`duration`) is the identity
on our model. -/
def fetchCaptionsTr (direct : Except Unit (List CaptionEntry)) (ytdlpError : Bool)
    (vttFiles : List (Option String)) :
    Option (List CaptionEntry) × List Adapter :=
  match direct with
  | .ok transcript =>
    if transcript.length > 0 then (some transcript, [Adapter.direct])
    else (fetchCaptionsWithYtDlp ytdlpError vttFiles, [Adapter.direct, Adapter.subtitle])
  | .error _ =>
    (fetchCaptionsWithYtDlp ytdlpError vttFiles, [Adapter.direct, Adapter.subtitle])

/-- `fetchCaptions` proper (the value the batch runner sees). -/
def fetchCaptions (direct : Except Unit (List CaptionEntry)) (ytdlpError : Bool)
    (vttFiles : List (Option String)) : Option (List CaptionEntry) :=
  (fetchCaptionsTr direct ytdlpError vttFiles).1

/-! ## The primary batch runner (`main` in `grab-captions.ts`)

The runner uses `p-limit` with a cap of 10; every ledger mutation and counter
increment is synchronous (no `await` inside), so the run is equivalent to a
sequential fold over the pending items in some completion order.  We model one
such order (list order); `resolve` is the per-video outcome of
`fetchCaptions` and `now` the timestamp oracle.  Observable effects are
accumulated in `RunState`: the in-memory ledger, the shared `completed`
counter, the ids whose Record file was written (`saveCaptions` calls, in
order), and the number of `saveProgress` calls. -/

/-- Observable state of one batch run. -/
structure RunState where
  progress : Progress
  completed : Nat
  records : List String
  saves : Nat
deriving DecidableEq, Repr

/-- Mutate the first ledger entry whose id matches, setting `lastAttempt`
(the `existingFailure.lastAttempt = ...` assignment). -/
def updateFirstFailure : List FailedVideo → String → String → List FailedVideo
  | [], _, _ => []
  | f :: rest, vid, now =>
    if f.id == vid then { f with lastAttempt := now } :: rest
    else f :: updateFirstFailure rest vid now

/-- The failure branch of the per-video task in `grab-captions.ts` (lines
287-299): update the existing failed entry's `lastAttempt` in place, or push a
new entry with the generic reason. -/
def recordFailure (p : Progress) (vid now : String) : Progress :=
  if (p.failedVideos.find? (fun f => f.id == vid)).isSome then
    { p with failedVideos := updateFirstFailure p.failedVideos vid now }
  else
    { p with failedVideos := p.failedVideos ++ [⟨vid, "No captions available", now⟩] }

/-- The `if (captions && captions.length > 0)` branch of the per-video task:
on success write the Record file and push to `processedVideos`; otherwise
record the failure in the ledger and write nothing. -/
def applyResult (st : RunState) (video : VideoInfo)
    (captions : Option (List CaptionEntry)) (now : String) : RunState :=
  match captions with
  | some cs =>
    if cs.length > 0 then
      { st with
          progress := { st.progress with
            processedVideos := st.progress.processedVideos ++ [video.id] },
          records := st.records ++ [video.id] }
    else { st with progress := recordFailure st.progress video.id now }
  | none => { st with progress := recordFailure st.progress video.id now }

/-- Shared tail of both per-item tasks: increment `completed` and snapshot the
ledger when `completed % K == 0` (`saveProgress` also stamps `lastRun`). -/
def afterCompletion (K : Nat) (now : String) (st : RunState) : RunState :=
  if (st.completed + 1) % K == 0 then
    { st with
        completed := st.completed + 1,
        saves := st.saves + 1,
        progress := { st.progress with lastRun := now } }
  else { st with completed := st.completed + 1 }

/-- One full per-video task of the primary pipeline (K = 50). -/
def processOne (resolve : VideoInfo → Option (List CaptionEntry)) (now : String)
    (st : RunState) (video : VideoInfo) : RunState :=
  afterCompletion 50 now (applyResult st video (resolve video) now)

/-- The pending set of `main` in `grab-captions.ts`:
`allVideos.filter((v) => !progress.processedVideos.includes(v.id))`. -/
def pendingVideos (init : Progress) (allVideos : List VideoInfo) :
    List VideoInfo :=
  allVideos.filter (fun v => !(init.processedVideos.contains v.id))

/-- The final unconditional `saveProgress` call of both pipelines. -/
def finalSave (now : String) (st : RunState) : RunState :=
  { st with
      saves := st.saves + 1,
      progress := { st.progress with lastRun := now } }

/-- `main` of `grab-captions.ts` after the playlists have been collected into
`allVideos`: filter out already-processed videos; if nothing is pending return
early (before any snapshot); otherwise process every pending video and do the
final unconditional `saveProgress`. -/
def mainRun (resolve : VideoInfo → Option (List CaptionEntry)) (now : String)
    (init : Progress) (allVideos : List VideoInfo) : RunState :=
  if (pendingVideos init allVideos).length == 0 then ⟨init, 0, [], 0⟩
  else
    finalSave now (List.foldl (processOne resolve now) ⟨init, 0, [], 0⟩
      (pendingVideos init allVideos))

/-! ## The enrichment pipeline (`transcribe-fallback.ts`)

`processVideo`'s external calls are passed in as outcomes: `info` for
`getVideoInfo` (`none` when it returned `null`), `audioOk` for
`downloadAudio`, and `trans` for `transcribeWithGroq` (`.error` when the call
threw).  The returned triple is the mutated ledger, the boolean result, and
the Record files written. -/

/-- `processVideo` from `transcribe-fallback.ts`. -/
def processVideo (info : Option VideoInfo) (audioOk : Bool)
    (trans : Except Unit (List CaptionEntry)) (progress : Progress)
    (videoId : String) : Progress × Bool × List String :=
  match info with
  | none => (progress, false, [])
  | some _ =>
    if !audioOk then (progress, false, [])
    else
      match trans with
      | .error _ => (progress, false, [])
      | .ok captions =>
        if captions.length == 0 then (progress, false, [])
        else
          ({ progress with
              processedVideos := progress.processedVideos ++ [videoId],
              failedVideos := progress.failedVideos.filter
                (fun f => !(f.id == videoId)) },
           true, [videoId])

/-- One per-item task of the enrichment pipeline (K = 5). -/
def enrichStep (info : String → Option VideoInfo) (audioOk : String → Bool)
    (trans : String → Except Unit (List CaptionEntry)) (now : String)
    (st : RunState) (f : FailedVideo) : RunState :=
  let r := processVideo (info f.id) (audioOk f.id) (trans f.id) st.progress f.id
  afterCompletion 5 now { st with progress := r.1, records := st.records ++ r.2.2 }

/-- JavaScript `parseInt(s, 10)`: skip leading whitespace, optional sign,
then the longest prefix of decimal digits; `none` models `NaN`. -/
def jsParseInt (s : String) : Option Int :=
  let cs := s.data.dropWhile (fun c => c.isWhitespace)
  let signAndRest : Int × List Char :=
    match cs with
    | '-' :: rest => (-1, rest)
    | '+' :: rest => (1, rest)
    | _ => (1, cs)
  let digits := signAndRest.2.takeWhile (fun c => c.isDigit)
  if digits.isEmpty then none
  else some (signAndRest.1 *
    (digits.foldl (fun n c => n * 10 + digitVal c) 0 : Nat))

/-- `l.slice(0, limit)` for a JavaScript numeric `limit` (`none` = `NaN`,
which converts to 0; a negative end counts from the end of the array). -/
def jsSlice {α : Type} (l : List α) (limit : Option Int) : List α :=
  match limit with
  | none => []
  | some n => if 0 ≤ n then l.take n.toNat else l.take (l.length - (-n).toNat)

/-- The argument parsing of `main` in `transcribe-fallback.ts`: `limit`
defaults to 1; when `--limit` is present and followed by a truthy (non-empty)
string, `limit` becomes its `parseInt` value (possibly `NaN`). -/
def parseLimitFromArgs (args : List String) : Option Int :=
  match args.findIdx? (fun a => a == "--limit") with
  | none => some 1
  | some i =>
    match args[i + 1]? with
    | none => some 1
    | some s => if s == "" then some 1 else jsParseInt s

/-- The items the enrichment run retries: `failedVideos.slice(0, limit)`. -/
def retriedItems (args : List String) (failed : List FailedVideo) :
    List FailedVideo :=
  jsSlice failed (parseLimitFromArgs args)

/-- `main` of `transcribe-fallback.ts`: if the failed list is empty return
early (before any snapshot); otherwise process the first `limit` failed
entries and do the final unconditional `saveProgress`. -/
def enrichMain (info : String → Option VideoInfo) (audioOk : String → Bool)
    (trans : String → Except Unit (List CaptionEntry)) (now : String)
    (args : List String) (init : Progress) : RunState :=
  if init.failedVideos.length == 0 then ⟨init, 0, [], 0⟩
  else
    finalSave now (List.foldl (enrichStep info audioOk trans now)
      ⟨init, 0, [], 0⟩ (retriedItems args init.failedVideos))

/-! ## Process exit (`main().catch(console.error)` in both scripts)

Both scripts end with the same line.  Its runtime semantics: if `main`'s
promise resolves, nothing is logged and the process exits 0; if it rejects,
`.catch(console.error)` logs the error to standard error and *resolves*, so
the event loop drains normally and the process still exits 0.  `topLevel`
returns the exit status and the standard-error log. -/

/-- Exit status and stderr lines produced by `main().catch(console.error)`
for a given outcome of `main`. -/
def topLevel (r : Except String Unit) : Nat × List String :=
  match r with
  | .ok _ => (0, [])
  | .error e => (0, [e])

/-! ## Helper lemmas -/

theorem afterCompletion_completed (K : Nat) (now : String) (st : RunState) :
    (afterCompletion K now st).completed = st.completed + 1 := by
  unfold afterCompletion
  split <;> rfl

theorem afterCompletion_saves (K : Nat) (now : String) (st : RunState) :
    (afterCompletion K now st).saves =
      st.saves + (if (st.completed + 1) % K = 0 then 1 else 0) := by
  unfold afterCompletion
  split
  next h => rw [if_pos (by simpa using h)]
  next h => rw [if_neg (by simpa using h)]; rfl

theorem afterCompletion_processed (K : Nat) (now : String) (st : RunState) :
    (afterCompletion K now st).progress.processedVideos =
      st.progress.processedVideos := by
  unfold afterCompletion
  split <;> rfl

theorem afterCompletion_failed (K : Nat) (now : String) (st : RunState) :
    (afterCompletion K now st).progress.failedVideos =
      st.progress.failedVideos := by
  unfold afterCompletion
  split <;> rfl

theorem afterCompletion_records (K : Nat) (now : String) (st : RunState) :
    (afterCompletion K now st).records = st.records := by
  unfold afterCompletion
  split <;> rfl

theorem div_succ_count (K c m : Nat) :
    ((if (c + 1) % K = 0 then 1 else 0) : Nat) + ((c + 1 + m) / K - (c + 1) / K)
      = (c + 1 + m) / K - c / K := by
  have h1 := Nat.succ_div c K
  have h2 : (c + 1) / K ≤ (c + 1 + m) / K := Nat.div_le_div_right (by omega)
  by_cases hd : (c + 1) % K = 0
  · have hdvd : K ∣ c + 1 := Nat.dvd_of_mod_eq_zero hd
    rw [if_pos hdvd] at h1
    rw [if_pos hd]
    omega
  · have hdvd : ¬K ∣ c + 1 := fun h => hd (Nat.mod_eq_zero_of_dvd h) 
    rw [if_neg hdvd] at h1
    rw [if_neg hd]
    omega

theorem foldl_afterCompletion_count {α : Type} (K : Nat) (now : String)
    (g : RunState → α → RunState)
    (hg : ∀ st x, (g st x).completed = st.completed ∧ (g st x).saves = st.saves) :
    ∀ (l : List α) (st : RunState),
      (List.foldl (fun s x => afterCompletion K now (g s x)) st l).completed =
        st.completed + l.length ∧
      (List.foldl (fun s x => afterCompletion K now (g s x)) st l).saves =
        st.saves + ((st.completed + l.length) / K - st.completed / K) := by
  intro l
  induction l with
  | nil => intro st; simp
  | cons x xs ih =>
    intro st
    rw [List.foldl_cons]
    obtain ⟨ihc, ihs⟩ := ih (afterCompletion K now (g st x))
    have hc : (afterCompletion K now (g st x)).completed = st.completed + 1 := by
      rw [afterCompletion_completed, (hg st x).1]
    have hs : (afterCompletion K now (g st x)).saves =
        st.saves + (if (st.completed + 1) % K = 0 then 1 else 0) := by
      rw [afterCompletion_saves, (hg st x).2, (hg st x).1]
    rw [hc] at ihc ihs
    rw [hs] at ihs
    constructor
    · rw [ihc, List.length_cons]
      omega
    · rw [ihs, List.length_cons]
      have hdf : st.completed + (xs.length + 1) = st.completed + 1 + xs.length := by omega
      rw [hdf]
      have hcount := div_succ_count K st.completed xs.length
      by_cases hmod : (st.completed + 1) % K = 0
      · rw [if_pos hmod] at hcount ⊢
        omega
      · rw [if_neg hmod] at hcount ⊢
        omega

theorem applyResult_counters (st : RunState) (video : VideoInfo)
    (captions : Option (List CaptionEntry)) (now : String) :
    (applyResult st video captions now).completed = st.completed ∧
    (applyResult st video captions now).saves = st.saves := by
  cases captions with
  | none => exact ⟨rfl, rfl⟩
  | some cs =>
    simp only [applyResult]
    split <;> exact ⟨rfl, rfl⟩

theorem foldl_processOne_success
    (resolve : VideoInfo → Option (List CaptionEntry)) (now : String)
    (l : List VideoInfo) :
    ∀ st : RunState, (∀ v ∈ l, ∃ cs, resolve v = some cs ∧ 0 < cs.length) →
      (List.foldl (processOne resolve now) st l).progress.processedVideos =
        st.progress.processedVideos ++ l.map (fun v => v.id) := by
  induction l with
  | nil => intro st _; simp
  | cons v vs ih =>
    intro st hall
    obtain ⟨cs, hcs, hlen⟩ := hall v (by simp)
    have hstep : (processOne resolve now st v).progress.processedVideos =
        st.progress.processedVideos ++ [v.id] := by
      unfold processOne
      rw [afterCompletion_processed, hcs]
      simp only [applyResult]
      rw [if_pos hlen]
    rw [List.foldl_cons, ih _ (fun w hw => hall w (by simp [hw])), hstep]
    simp

theorem parseBlock_text_ne {b : List Char} {e : CaptionEntry}
    (h : parseBlock b = some e) : e.text ≠ "" := by
  simp only [parseBlock] at h
  split at h
  · exact absurd h (by simp)
  · split at h
    · exact absurd h (by simp)
    · split at h
      next hEmpty => exact absurd h (by simp)
      next hEmpty =>
        injection h with h
        subst h
        intro hcontra
        have hdata := congrArg String.data hcontra
        simp only [String.data] at hdata
        rw [hdata] at hEmpty
        exact hEmpty rfl

theorem firstNonEmpty_all_nil {l : List (List CaptionEntry)}
    (h : ∀ es ∈ l, es = []) : firstNonEmpty l = none := by
  induction l with
  | nil => rfl
  | cons es rest ih =>
    have hes : es = [] := h es (by simp)
    subst hes
    simp only [firstNonEmpty, List.length_nil, gt_iff_lt, Nat.lt_irrefl, if_false]
    exact ih (fun x hx => h x (by simp [hx]))

theorem fetchCaptionsTr_trace (direct : Except Unit (List CaptionEntry))
    (ytdlpError : Bool) (vttFiles : List (Option String)) :
    (fetchCaptionsTr direct ytdlpError vttFiles).2 = [Adapter.direct] ∨
    (fetchCaptionsTr direct ytdlpError vttFiles).2 =
      [Adapter.direct, Adapter.subtitle] := by
  cases direct with
  | error e => exact Or.inr rfl
  | ok t =>
    by_cases h : t.length > 0
    · exact Or.inl (by simp [fetchCaptionsTr, h])
    · exact Or.inr (by simp [fetchCaptionsTr, h])

/-! ## Claim theorems -/

/-- C4: `parseVttFile` implements the specified parsing contract — blocks
split on blank-line runs, the timing line matched against the
`HH:MM:SS.mmm --> HH:MM:SS.mmm` pattern with millisecond conversion
`H*3600000 + M*60000 + S*1000 + mmm`, the following lines joined with a
single space, tags stripped, result trimmed, and empty-text blocks discarded
(every emitted entry has non-empty text).  In particular, the two-cue sample
parses to exactly the two claimed entries. -/
theorem parseVtt_contract :
    parseVttFile (some vttSample) =
      [⟨"Hello world", 1000, 1500⟩, ⟨"Second line", 3000, 1000⟩] ∧
    ∀ file : Option String, ∀ e ∈ parseVttFile file, e.text ≠ "" := by
  constructor
  · decide
  · intro file e he
    cases file with
    | none => simp [parseVttFile] at he
    | some c =>
      simp only [parseVttFile, parseVtt] at he
      obtain ⟨b, _, hpb⟩ := List.mem_filterMap.mp he
      exact parseBlock_text_ne hpb

/-- Witness for C4: the first sample cue is an entry of the parse and indeed
has non-empty text. -/
theorem parseVtt_contract_witness :
    (⟨"Hello world", 1000, 1500⟩ : CaptionEntry).text ≠ "" :=
  parseVtt_contract.2 (some vttSample) ⟨"Hello world", 1000, 1500⟩ (by decide)

/-- C1: the resolver tries the direct-caption adapter first and returns its
non-empty result without invoking the subtitle-file adapter; only on a thrown
error or empty transcript is the subtitle-file adapter tried; when that too
yields no entries the resolver returns absent; the speech-to-text adapter is
never invoked in the primary run, and no adapter is invoked twice. -/
theorem fetchCaptions_adapter_order (direct : Except Unit (List CaptionEntry))
    (ytdlpError : Bool) (vttFiles : List (Option String)) :
    (∀ t, direct = Except.ok t → 0 < t.length →
      fetchCaptionsTr direct ytdlpError vttFiles = (some t, [Adapter.direct])) ∧
    (∀ t, direct = Except.ok t → t.length = 0 →
      fetchCaptionsTr direct ytdlpError vttFiles =
        (fetchCaptionsWithYtDlp ytdlpError vttFiles,
         [Adapter.direct, Adapter.subtitle])) ∧
    (∀ u, direct = Except.error u →
      fetchCaptionsTr direct ytdlpError vttFiles =
        (fetchCaptionsWithYtDlp ytdlpError vttFiles,
         [Adapter.direct, Adapter.subtitle])) ∧
    ((∀ f ∈ vttFiles, parseVttFile f = []) →
      fetchCaptionsWithYtDlp ytdlpError vttFiles = none) ∧
    Adapter.stt ∉ (fetchCaptionsTr direct ytdlpError vttFiles).2 ∧
    (fetchCaptionsTr direct ytdlpError vttFiles).2.Nodup := by
  refine ⟨?_, ?_, ?_, ?_, ?_, ?_⟩
  · intro t ht hlen
    subst ht
    simp [fetchCaptionsTr, hlen]
  · intro t ht hlen
    subst ht
    simp [fetchCaptionsTr, hlen]
  · intro u hu
    subst hu
    rfl
  · intro hall
    unfold fetchCaptionsWithYtDlp
    by_cases he : ytdlpError
    · rw [if_pos he]
    · rw [if_neg he]
      refine firstNonEmpty_all_nil ?_
      intro es hes
      obtain ⟨f, hf, rfl⟩ := List.mem_map.mp hes
      exact hall f hf
  · rcases fetchCaptionsTr_trace direct ytdlpError vttFiles with h | h <;>
      rw [h] <;> decide
  · rcases fetchCaptionsTr_trace direct ytdlpError vttFiles with h | h <;>
      rw [h] <;> decide

/-- Witness for C1: a non-empty direct-caption result is returned as-is with
only the direct adapter invoked. -/
theorem fetchCaptions_adapter_order_witness :
    fetchCaptionsTr (Except.ok [⟨"a", 0, 1⟩]) false [] =
      (some [⟨"a", 0, 1⟩], [Adapter.direct]) :=
  (fetchCaptions_adapter_order (Except.ok [⟨"a", 0, 1⟩]) false []).1
    [⟨"a", 0, 1⟩] rfl (by decide)

/-- Counterexample for C2: when the progress file exists but its contents do
not parse, `loadProgress` propagates the error to the caller instead of
returning the fresh empty ledger the claim promises. -/
theorem loadProgress_corrupt_escalates :
    loadProgress (some "corrupt") (fun _ => none) = Except.error () ∧
    loadProgress (some "corrupt") (fun _ => none) ≠
      Except.ok ⟨[], [], ""⟩ := by
  constructor
  · rfl
  · intro h
    exact Except.noConfusion h

/-- C2 (amended): an absent progress file yields the fresh empty ledger; an
existing file is returned as parsed, and a parse failure propagates to the
caller (it is not converted to a fresh ledger). -/
theorem loadProgress_amended (parseJson : String → Option Progress) (s : String) :
    loadProgress none parseJson = Except.ok ⟨[], [], ""⟩ ∧
    (parseJson s = none → loadProgress (some s) parseJson = Except.error ()) ∧
    (∀ p, parseJson s = some p → loadProgress (some s) parseJson = Except.ok p) := by
  refine ⟨rfl, ?_, ?_⟩
  · intro h
    simp [loadProgress, h]
  · intro p h
    simp [loadProgress, h]

/-- Witness for C2 (amended): a missing file gives the fresh ledger and a
corrupt file gives an error. -/
theorem loadProgress_amended_witness :
    loadProgress none (fun _ => none) = Except.ok ⟨[], [], ""⟩ ∧
    loadProgress (some "x") (fun _ => none) = Except.error () :=
  ⟨(loadProgress_amended (fun _ => none) "x").1,
   (loadProgress_amended (fun _ => none) "x").2.1 rfl⟩

/-- Counterexample for C8: an unhandled top-level error still exits with
status 0 — `main().catch(console.error)` logs the error and resolves, so the
claimed non-zero exit status never happens. -/
theorem topLevel_error_exits_zero :
    (topLevel (Except.error "boom")).1 = 0 ∧
    (topLevel (Except.error "boom")).2 = ["boom"] := by
  exact ⟨rfl, rfl⟩

/-- C8 (amended): both commands exit 0 on completion regardless of per-item
failures, and also exit 0 on an unhandled top-level error, which is logged to
standard error. -/
theorem topLevel_exit_status (r : Except String Unit) :
    (topLevel r).1 = 0 ∧ (∀ e, r = Except.error e → (topLevel r).2 = [e]) := by
  cases r with
  | ok u => exact ⟨rfl, fun e he => Except.noConfusion he⟩
  | error a =>
    refine ⟨rfl, ?_⟩
    intro e he
    injection he with he
    subst he
    rfl

/-- Witness for C8 (amended) at a concrete top-level error. -/
theorem topLevel_exit_status_witness :
    (topLevel (Except.error "crash")).1 = 0 ∧
    (topLevel (Except.error "crash")).2 = ["crash"] :=
  ⟨(topLevel_exit_status (Except.error "crash")).1,
   (topLevel_exit_status (Except.error "crash")).2 "crash" rfl⟩

theorem mainRun_fold_counters
    (resolve : VideoInfo → Option (List CaptionEntry)) (now : String)
    (l : List VideoInfo) (st : RunState) :
    (List.foldl (processOne resolve now) st l).saves =
      st.saves + ((st.completed + l.length) / 50 - st.completed / 50) ∧
    (List.foldl (processOne resolve now) st l).completed =
      st.completed + l.length := by
  have h := foldl_afterCompletion_count 50 now
    (fun s v => applyResult s v (resolve v) now)
    (fun s v => applyResult_counters s v (resolve v) now) l st
  exact ⟨h.2, h.1⟩

theorem enrich_fold_counters (info : String → Option VideoInfo)
    (audioOk : String → Bool) (trans : String → Except Unit (List CaptionEntry))
    (now : String) (l : List FailedVideo) (st : RunState) :
    (List.foldl (enrichStep info audioOk trans now) st l).saves =
      st.saves + ((st.completed + l.length) / 5 - st.completed / 5) := by
  have h := foldl_afterCompletion_count 5 now
    (fun s f => { s with
        progress := (processVideo (info f.id) (audioOk f.id) (trans f.id)
          s.progress f.id).1,
        records := s.records ++ (processVideo (info f.id) (audioOk f.id)
          (trans f.id) s.progress f.id).2.2 })
    (fun s f => ⟨rfl, rfl⟩) l st
  exact h.2

/-- A concrete video used in witnesses and counterexamples. -/
def cVideo : VideoInfo := ⟨"v1", "t", "u", 0, "p", "pt"⟩

/-- Counterexample for C3: with zero pending items, both pipelines return
early and snapshot the ledger zero times, not the claimed one time. -/
theorem snapshot_zero_pending :
    (mainRun (fun _ => none) "t" ⟨[], [], ""⟩ []).saves = 0 ∧
    (enrichMain (fun _ => none) (fun _ => false) (fun _ => Except.error ())
      "t" [] ⟨[], [], ""⟩).saves = 0 := by
  constructor <;> rfl

/-- C3 (amended): when at least one item is pending, the ledger is
snapshotted once per 50 completions (primary) or 5 (enrichment) plus exactly
one unconditional final snapshot; when zero items are pending, both pipelines
return early and snapshot zero times. -/
theorem snapshot_schedule
    (resolve : VideoInfo → Option (List CaptionEntry)) (now : String)
    (init : Progress) (allVideos : List VideoInfo)
    (info : String → Option VideoInfo) (audioOk : String → Bool)
    (trans : String → Except Unit (List CaptionEntry)) (now2 : String)
    (args : List String) (init2 : Progress) :
    (pendingVideos init allVideos = [] →
      (mainRun resolve now init allVideos).saves = 0) ∧
    (pendingVideos init allVideos ≠ [] →
      (mainRun resolve now init allVideos).saves =
        (pendingVideos init allVideos).length / 50 + 1) ∧
    (init2.failedVideos = [] →
      (enrichMain info audioOk trans now2 args init2).saves = 0) ∧
    (init2.failedVideos ≠ [] →
      (enrichMain info audioOk trans now2 args init2).saves =
        (retriedItems args init2.failedVideos).length / 5 + 1) := by
  refine ⟨?_, ?_, ?_, ?_⟩
  · intro h
    unfold mainRun
    rw [h]
    rfl
  · intro h
    have hlen : ((pendingVideos init allVideos).length == 0) = false := by
      rw [beq_eq_false_iff_ne]
      exact fun hh => h (List.length_eq_zero.mp hh)
    unfold mainRun
    rw [hlen]
    simp only [Bool.false_eq_true, if_false]
    unfold finalSave
    rw [(mainRun_fold_counters resolve now _ _).1]
    simp
  · intro h
    unfold enrichMain
    rw [h]
    rfl
  · intro h
    have hlen : (init2.failedVideos.length == 0) = false := by
      rw [beq_eq_false_iff_ne]
      exact fun hh => h (List.length_eq_zero.mp hh)
    unfold enrichMain
    rw [hlen]
    simp only [Bool.false_eq_true, if_false]
    unfold finalSave
    rw [enrich_fold_counters]
    simp

/-- Witness for C3 (amended): one pending video gives exactly one (final)
snapshot; an empty enrichment backlog gives zero snapshots. -/
theorem snapshot_schedule_witness :
    (mainRun (fun _ => none) "t" ⟨[], [], ""⟩ [cVideo]).saves = 1 ∧
    (enrichMain (fun _ => none) (fun _ => false) (fun _ => Except.error ())
      "t" [] ⟨[], [], ""⟩).saves = 0 := by
  constructor
  · exact ((snapshot_schedule (fun _ => none) "t" ⟨[], [], ""⟩ [cVideo]
      (fun _ => none) (fun _ => false) (fun _ => Except.error ()) "t" []
      ⟨[], [], ""⟩).2.1 (by decide)).trans (by decide)
  · exact (snapshot_schedule (fun _ => none) "t" ⟨[], [], ""⟩ [cVideo]
      (fun _ => none) (fun _ => false) (fun _ => Except.error ()) "t" []
      ⟨[], [], ""⟩).2.2.1 rfl

/-- C5: when the resolver returns absent (or an empty list) for an item whose
id has no failed entry yet, the ledger's failed list gains exactly one entry
for that id carrying the generic reason string and the attempt timestamp, the
done set is untouched, no Record file is written, and the batch fold proceeds
with the remaining items. -/
theorem exhaustion_marks_failed
    (resolve : VideoInfo → Option (List CaptionEntry)) (now : String)
    (st : RunState) (video : VideoInfo)
    (hres : resolve video = none ∨ resolve video = some [])
    (hfresh : ∀ f ∈ st.progress.failedVideos, f.id ≠ video.id) :
    (processOne resolve now st video).progress.failedVideos =
      st.progress.failedVideos ++ [⟨video.id, "No captions available", now⟩] ∧
    (processOne resolve now st video).progress.failedVideos.filter
        (fun f => f.id == video.id) =
      [⟨video.id, "No captions available", now⟩] ∧
    (processOne resolve now st video).progress.processedVideos =
      st.progress.processedVideos ∧
    (processOne resolve now st video).records = st.records ∧
    (∀ rest, List.foldl (processOne resolve now) st (video :: rest) =
      List.foldl (processOne resolve now) (processOne resolve now st video) rest) := by
  have happ : applyResult st video (resolve video) now =
      { st with progress := recordFailure st.progress video.id now } := by
    rcases hres with h | h <;> rw [h] <;> rfl
  have hfind : st.progress.failedVideos.find? (fun f => f.id == video.id) = none := by
    rw [List.find?_eq_none]
    intro f hf
    simpa using hfresh f hf
  have hrec : recordFailure st.progress video.id now =
      { st.progress with failedVideos :=
          st.progress.failedVideos ++ [⟨video.id, "No captions available", now⟩] } := by
    unfold recordFailure
    rw [hfind]
    rfl
  have hproc : processOne resolve now st video =
      afterCompletion 50 now { st with progress :=
        { st.progress with failedVideos :=
            st.progress.failedVideos ++
              [⟨video.id, "No captions available", now⟩] } } := by
    unfold processOne
    rw [happ, hrec]
  refine ⟨?_, ?_, ?_, ?_, fun rest => rfl⟩
  · rw [hproc, afterCompletion_failed]
  · rw [hproc, afterCompletion_failed]
    show (st.progress.failedVideos ++
      ([⟨video.id, "No captions available", now⟩] : List FailedVideo)).filter
        (fun f => f.id == video.id) =
      [⟨video.id, "No captions available", now⟩]
    rw [List.filter_append]
    have h1 : st.progress.failedVideos.filter (fun f => f.id == video.id) = [] := by
      rw [List.filter_eq_nil_iff]
      intro f hf
      simpa using hfresh f hf
    rw [h1]
    simp
  · rw [hproc, afterCompletion_processed]
  · rw [hproc, afterCompletion_records]

/-- Witness for C5 at a concrete fresh item with no captions. -/
theorem exhaustion_marks_failed_witness :
    (processOne (fun _ => none) "t"
      ⟨⟨[], [], ""⟩, 0, [], 0⟩ cVideo).progress.failedVideos =
      [⟨"v1", "No captions available", "t"⟩] := by
  have h := exhaustion_marks_failed (fun _ => none) "t"
    ⟨⟨[], [], ""⟩, 0, [], 0⟩ cVideo (Or.inl rfl)
    (by intro f hf; exact absurd hf (by simp))
  simpa using h.1

theorem updateFirstFailure_append (l1 l2 : List FailedVideo) (f : FailedVideo)
    (vid now : String) (hf : f.id = vid) (h1 : ∀ g ∈ l1, g.id ≠ vid) :
    updateFirstFailure (l1 ++ f :: l2) vid now =
      l1 ++ { f with lastAttempt := now } :: l2 := by
  induction l1 with
  | nil =>
    simp only [List.nil_append, updateFirstFailure]
    rw [if_pos (by simpa using hf)]
  | cons g gs ih =>
    have hg : (g.id == vid) = false := by simpa using h1 g (by simp)
    simp only [List.cons_append, updateFirstFailure]
    rw [hg]
    simp only [Bool.false_eq_true, if_false, List.append_eq]
    rw [ih (fun x hx => h1 x (by simp [hx]))]

/-- Counterexample for C6: in the enrichment pipeline a failing re-attempt
(here the transcription call throws) leaves the existing failed entry's
`lastAttempt` at its old value instead of updating it to the new attempt
time, and leaves the ledger entirely unchanged. -/
theorem enrich_retry_no_timestamp_update :
    (processVideo (some cVideo) true (Except.error ())
      ⟨[], [⟨"v1", "No captions available", "t0"⟩], ""⟩ "v1").1 =
      ⟨[], [⟨"v1", "No captions available", "t0"⟩], ""⟩ ∧
    ((processVideo (some cVideo) true (Except.error ())
      ⟨[], [⟨"v1", "No captions available", "t0"⟩], ""⟩ "v1").1.failedVideos.map
        (fun f => f.lastAttempt)) = ["t0"] := by
  constructor <;> rfl

/-- C6 (amended): in the primary pipeline a failing re-attempt on an id with
exactly one existing failed entry updates that entry's `lastAttempt` in place
and keeps exactly one entry for the id; in the enrichment pipeline any
failing re-attempt leaves the ledger unchanged (so still exactly one entry,
with the old `lastAttempt`); in neither pipeline is a second entry added. -/
theorem failed_retry_single_entry (p : Progress) (vid now : String)
    (l1 l2 : List FailedVideo) (f : FailedVideo)
    (hsplit : p.failedVideos = l1 ++ f :: l2) (hf : f.id = vid)
    (h1 : ∀ g ∈ l1, g.id ≠ vid) (h2 : ∀ g ∈ l2, g.id ≠ vid) :
    (recordFailure p vid now).failedVideos =
      l1 ++ { f with lastAttempt := now } :: l2 ∧
    (recordFailure p vid now).failedVideos.filter (fun g => g.id == vid) =
      [{ f with lastAttempt := now }] ∧
    (recordFailure p vid now).processedVideos = p.processedVideos ∧
    (∀ info audioOk tr fid,
      (processVideo info audioOk tr p fid).2.1 = false →
      (processVideo info audioOk tr p fid).1 = p) := by
  have hmem : f ∈ p.failedVideos := by rw [hsplit]; simp
  have hfound : (p.failedVideos.find? (fun g => g.id == vid)).isSome = true := by
    rw [List.find?_isSome]
    exact ⟨f, hmem, by simpa using hf⟩
  have hrec : (recordFailure p vid now).failedVideos =
      l1 ++ { f with lastAttempt := now } :: l2 := by
    unfold recordFailure
    rw [if_pos hfound]
    show updateFirstFailure p.failedVideos vid now = _
    rw [hsplit]
    exact updateFirstFailure_append l1 l2 f vid now hf h1
  have hproc : (recordFailure p vid now).processedVideos = p.processedVideos := by
    unfold recordFailure
    rw [if_pos hfound]
  refine ⟨hrec, ?_, hproc, ?_⟩
  · rw [hrec, List.filter_append]
    have hl1 : l1.filter (fun g => g.id == vid) = [] := by
      rw [List.filter_eq_nil_iff]
      intro g hg
      simpa using h1 g hg
    have hl2 : l2.filter (fun g => g.id == vid) = [] := by
      rw [List.filter_eq_nil_iff]
      intro g hg
      simpa using h2 g hg
    rw [hl1]
    simp [hl2, hf]
  · intro info audioOk tr fid hfalse
    cases info with
    | none => rfl
    | some vi =>
      cases audioOk with
      | false => rfl
      | true =>
        cases tr with
        | error u => rfl
        | ok cs =>
          cases cs with
          | nil => rfl
          | cons c cs2 => exact absurd hfalse (by simp [processVideo])

/-- Witness for C6 (amended) at a concrete singleton failed list. -/
theorem failed_retry_single_entry_witness :
    (recordFailure ⟨[], [⟨"v1", "No captions available", "t0"⟩], ""⟩
      "v1" "t1").failedVideos = [⟨"v1", "No captions available", "t1"⟩] := by
  have h := failed_retry_single_entry
    ⟨[], [⟨"v1", "No captions available", "t0"⟩], ""⟩ "v1" "t1" [] []
    ⟨"v1", "No captions available", "t0"⟩ rfl rfl
    (by intro g hg; exact absurd hg (by simp))
    (by intro g hg; exact absurd hg (by simp))
  simpa using h.1

theorem mainRun_pending_nil (resolve : VideoInfo → Option (List CaptionEntry))
    (now : String) (init : Progress) (allVideos : List VideoInfo)
    (h : pendingVideos init allVideos = []) :
    mainRun resolve now init allVideos = ⟨init, 0, [], 0⟩ := by
  unfold mainRun
  rw [h]
  rfl

/-- Counterexample for C7: with one item whose adapters all come up empty,
the first run marks it failed (not done), so the second run's pending set is
that item again — not the empty set the claim promises — and the second run
mutates the ledger again. -/
theorem second_run_pending_nonempty :
    pendingVideos
      (mainRun (fun _ => none) "t1" ⟨[], [], ""⟩ [cVideo]).progress
      [cVideo] = [cVideo] ∧
    (mainRun (fun _ => none) "t2"
      (mainRun (fun _ => none) "t1" ⟨[], [], ""⟩ [cVideo]).progress
      [cVideo]).progress ≠
      (mainRun (fun _ => none) "t1" ⟨[], [], ""⟩ [cVideo]).progress := by
  constructor
  · rfl
  · decide

/-- C7 (amended): when every item of the list resolves successfully, one run
marks every id done; the second run over the unchanged list then has an empty
pending set and returns immediately — no Record write, no ledger mutation,
no snapshot. -/
theorem idempotent_resume
    (resolve : VideoInfo → Option (List CaptionEntry)) (now now2 : String)
    (init : Progress) (allVideos : List VideoInfo)
    (hsucc : ∀ v ∈ allVideos, ∃ cs, resolve v = some cs ∧ 0 < cs.length) :
    pendingVideos (mainRun resolve now init allVideos).progress allVideos = [] ∧
    mainRun resolve now2 (mainRun resolve now init allVideos).progress
      allVideos =
      ⟨(mainRun resolve now init allVideos).progress, 0, [], 0⟩ := by
  have hall : ∀ v ∈ allVideos,
      (mainRun resolve now init allVideos).progress.processedVideos.contains
        v.id = true := by
    by_cases hp : pendingVideos init allVideos = []
    · intro v hv
      rw [mainRun_pending_nil resolve now init allVideos hp]
      by_contra hc
      have hmemp : v ∈ pendingVideos init allVideos := by
        unfold pendingVideos
        rw [List.mem_filter]
        refine ⟨hv, ?_⟩
        rw [Bool.eq_false_iff.mpr hc]
        rfl
      rw [hp] at hmemp
      exact absurd hmemp (by simp)
    · have hlen : ((pendingVideos init allVideos).length == 0) = false := by
        rw [beq_eq_false_iff_ne]
        exact fun hh => hp (List.length_eq_zero.mp hh)
      have hrunp : (mainRun resolve now init allVideos).progress.processedVideos =
          init.processedVideos ++
            (pendingVideos init allVideos).map (fun v => v.id) := by
        unfold mainRun
        rw [hlen]
        simp only [Bool.false_eq_true, if_false]
        unfold finalSave
        show (List.foldl (processOne resolve now) ⟨init, 0, [], 0⟩
          (pendingVideos init allVideos)).progress.processedVideos = _
        exact foldl_processOne_success resolve now _ _
          (fun v hv => hsucc v (List.mem_of_mem_filter hv))
      intro v hv
      rw [hrunp, List.elem_iff]
      by_cases hcv : v.id ∈ init.processedVideos
      · exact List.mem_append.mpr (Or.inl hcv)
      · refine List.mem_append.mpr (Or.inr ?_)
        refine List.mem_map.mpr ⟨v, ?_, rfl⟩
        unfold pendingVideos
        rw [List.mem_filter]
        refine ⟨hv, ?_⟩
        have : init.processedVideos.contains v.id = false := by
          rw [Bool.eq_false_iff]
          intro hc
          exact hcv (List.elem_iff.mp hc)
        rw [this]
        rfl
  have hpend2 : pendingVideos (mainRun resolve now init allVideos).progress
      allVideos = [] := by
    unfold pendingVideos
    rw [List.filter_eq_nil_iff]
    intro v hv
    rw [hall v hv]
    simp
  exact ⟨hpend2, mainRun_pending_nil resolve now2 _ allVideos hpend2⟩

/-- Witness for C7 (amended): a one-item list that succeeds leaves nothing
pending and makes the second run a no-op. -/
theorem idempotent_resume_witness :
    pendingVideos
      (mainRun (fun _ => some [⟨"hi", 0, 1⟩]) "t1" ⟨[], [], ""⟩
        [cVideo]).progress [cVideo] = [] := by
  have h := idempotent_resume (fun _ => some [⟨"hi", 0, 1⟩]) "t1" "t2"
    ⟨[], [], ""⟩ [cVideo]
    (by intro v hv; exact ⟨[⟨"hi", 0, 1⟩], rfl, by decide⟩)
  exact h.1

/-- C9: the enrichment command's retry budget defaults to 1 when `--limit`
is absent; when `--limit` is followed by a non-empty string whose `parseInt`
is a non-negative integer n, exactly the first n entries of the ledger's
failed list are retried, hence at most n items per invocation. -/
theorem limit_selection (args : List String) (failed : List FailedVideo) :
    (args.findIdx? (fun a => a == "--limit") = none →
      retriedItems args failed = failed.take 1) ∧
    (∀ i s n, args.findIdx? (fun a => a == "--limit") = some i →
      args[i + 1]? = some s → s ≠ "" → jsParseInt s = some n → 0 ≤ n →
      retriedItems args failed = failed.take n.toNat ∧
      (retriedItems args failed).length ≤ n.toNat) := by
  constructor
  · intro h
    simp only [retriedItems, parseLimitFromArgs, h, jsSlice]
    rw [if_pos (by norm_num)]
    rfl
  · intro i s n hidx hget hs hparse hn
    have hsb : (s == "") = false := by
      rw [beq_eq_false_iff_ne]
      exact hs
    have hsel : retriedItems args failed = failed.take n.toNat := by
      simp only [retriedItems, parseLimitFromArgs, hidx, hget, hsb,
        Bool.false_eq_true, if_false, hparse, jsSlice]
      rw [if_pos hn]
    refine ⟨hsel, ?_⟩
    rw [hsel, List.length_take]
    exact min_le_left _ _

/-- Witness for C9: the default budget and an explicit `--limit 3`. -/
theorem limit_selection_witness :
    retriedItems [] [⟨"a", "e", "t"⟩, ⟨"b", "e", "t"⟩] =
      [⟨"a", "e", "t"⟩] ∧
    retriedItems ["--limit", "3"] [⟨"a", "e", "t"⟩] = [⟨"a", "e", "t"⟩] := by
  constructor
  · exact ((limit_selection [] [⟨"a", "e", "t"⟩, ⟨"b", "e", "t"⟩]).1
      rfl).trans (by decide)
  · exact (((limit_selection ["--limit", "3"] [⟨"a", "e", "t"⟩]).2
      0 "3" 3 (by decide) rfl (by decide) (by decide) (by decide)).1).trans
      (by decide)

/-- C10: in the enrichment pipeline a successful `processVideo` appends the
id to the done set and removes every failed entry with that id (the id no
longer appears in failed), while every failure path — missing video info,
failed audio download, a thrown transcription call, or an empty
transcription — leaves the ledger untouched and writes no Record. -/
theorem processVideo_frame (p : Progress) (vid : String) :
    (∀ vi cs, cs ≠ [] →
      processVideo (some vi) true (Except.ok cs) p vid =
        ({ p with
            processedVideos := p.processedVideos ++ [vid],
            failedVideos := p.failedVideos.filter (fun f => !(f.id == vid)) },
         true, [vid])) ∧
    (∀ vi cs, cs ≠ [] →
      ∀ f ∈ (processVideo (some vi) true (Except.ok cs) p vid).1.failedVideos,
        f.id ≠ vid) ∧
    (∀ a tr, processVideo none a tr p vid = (p, false, [])) ∧
    (∀ i tr, processVideo i false tr p vid = (p, false, [])) ∧
    (∀ i a, processVideo i a (Except.error ()) p vid = (p, false, [])) ∧
    (∀ i a, processVideo i a (Except.ok []) p vid = (p, false, [])) := by
  have hsucc : ∀ (vi : VideoInfo) (c : CaptionEntry) (cs2 : List CaptionEntry),
      processVideo (some vi) true (Except.ok (c :: cs2)) p vid =
        ({ p with
            processedVideos := p.processedVideos ++ [vid],
            failedVideos := p.failedVideos.filter (fun f => !(f.id == vid)) },
         true, [vid]) := fun vi c cs2 => rfl
  refine ⟨?_, ?_, ?_, ?_, ?_, ?_⟩
  · intro vi cs hcs
    cases cs with
    | nil => exact absurd rfl hcs
    | cons c cs2 => exact hsucc vi c cs2
  · intro vi cs hcs f hf
    cases cs with
    | nil => exact absurd rfl hcs
    | cons c cs2 =>
      rw [hsucc vi c cs2] at hf
      have := (List.mem_filter.mp hf).2
      simpa using this
  · intro a tr
    rfl
  · intro i tr
    cases i with
    | none => rfl
    | some vi => rfl
  · intro i a
    cases i with
    | none => rfl
    | some vi =>
      cases a with
      | false => rfl
      | true => rfl
  · intro i a
    cases i with
    | none => rfl
    | some vi =>
      cases a with
      | false => rfl
      | true => rfl

/-- Witness for C10: a concrete successful enrichment clears the failed
entry and marks the id done. -/
theorem processVideo_frame_witness :
    processVideo (some cVideo) true (Except.ok [⟨"hi", 0, 1⟩])
      ⟨[], [⟨"v1", "No captions available", "t0"⟩], ""⟩ "v1" =
      (⟨["v1"], [], ""⟩, true, ["v1"]) := by
  have h := (processVideo_frame
    ⟨[], [⟨"v1", "No captions available", "t0"⟩], ""⟩ "v1").1
    cVideo [⟨"hi", 0, 1⟩] (by decide)
  exact h.trans (by decide)
